import Mathlib

/-!
# Verification of the ctgfun-pl m3u scraper (src/scraper/scraper.py)

A shallow embedding of the scraper's pipeline in Lean 4:

* `parse_movie_name` — the filename title/year extractor (strings are
  modelled as `List Char` internally; the regular expressions of the source
  are modelled by explicit scanning functions with the same semantics on
  the ASCII fragment: the word/space/digit character classes are the ASCII
  ones).
* `tmdb_search` — the TMDB resolver with its process-wide cache.  The
  HTTP retry loop is abstracted by an oracle `Net`: `net title yearParam`
  is `none` when all three attempts fail, and `some results` when some
  attempt succeeds with the given (possibly empty) result list.  Each
  invocation of the retry loop counts as one external search; the counter
  returned by `tmdb_search` counts these searches.
* `crawl` — the directory crawler.  The HTTP fetch, `urllib.parse.urljoin`
  and `urllib.parse.unquote` are collaborator functions supplied in a
  `CrawlEnv`; the crawler's own logic (link filtering, folder/file
  classification, category accumulation) is translated from the source.
  The unbounded recursion of the source is indexed by a fuel parameter;
  theorems quantify over all fuel values.
* `build_m3u` — the playlist builder, threading the cache through the
  per-entry resolver calls.
* `mainRun` — the `__main__` block: exit status and the optional output
  file content.
-/

/-! ## Character classes (ASCII fragment of Python's str/re semantics) -/

/-- Whitespace as in Python's `str.strip()` / `\s` (ASCII part). -/
def isSpaceCh (c : Char) : Bool :=
  c == ' ' || c == '\t' || c == '\n' || c == '\r' || c == '\x0b' || c == '\x0c'

/-- Word characters as in Python's `\w` / `\b` boundaries (ASCII part). -/
def isWordChar (c : Char) : Bool :=
  c.isAlphanum || c == '_'

/-- Python `str.strip()` on a character list: drop leading and trailing
whitespace. -/
def trimL (cs : List Char) : List Char :=
  ((cs.dropWhile isSpaceCh).reverse.dropWhile isSpaceCh).reverse

/-- `str.strip()` on a `String`. -/
def trimStr (s : String) : String :=
  String.mk (trimL s.data)

/-! ## `pathlib.PurePosixPath` name/stem/suffix -/

/-- Split a character list on `/`. -/
def splitSlash : List Char → List (List Char)
  | [] => [[]]
  | c :: rest =>
    if c == '/' then [] :: splitSlash rest
    else
      match splitSlash rest with
      | g :: gs => (c :: g) :: gs
      | [] => [[c]]

/-- `pathlib.Path(s).name`: the last path component (empty components and
`.` components are dropped, as pathlib normalises them away). -/
def pathNameL (cs : List Char) : List Char :=
  (((splitSlash cs).filter (fun g => g ≠ [] ∧ g ≠ ['.'])).getLast?).getD []

/-- Index of the last `.` in a name, as `str.rfind('.')` (but `none`
instead of `-1`). -/
def rfindDot (cs : List Char) : Option Nat :=
  (cs.reverse.findIdx? (fun c => c == '.')).map (fun j => cs.length - 1 - j)

/-- `pathlib.Path(...).stem` of a name: the name without its final suffix;
the suffix exists only when the last dot is at an index `i` with
`0 < i < len - 1`. -/
def pathStemOfName (nm : List Char) : List Char :=
  match rfindDot nm with
  | some i => if 0 < i ∧ i < nm.length - 1 then nm.take i else nm
  | none => nm

/-- `pathlib.Path(...).suffix` of a name (includes the leading dot). -/
def pathSuffixOfName (nm : List Char) : List Char :=
  match rfindDot nm with
  | some i => if 0 < i ∧ i < nm.length - 1 then nm.drop i else []
  | none => []

/-! ## Filename parser (`parse_movie_name`) -/

/-- `re.sub(r"[._]", " ", name)`. -/
def sepStrip (cs : List Char) : List Char :=
  cs.map (fun c => if c == '.' || c == '_' then ' ' else c)

/-- The dot/underscore-to-space form of the extension-stripped filename:
`name` after the first two statements of `parse_movie_name`. -/
def nameOf (filename : String) : List Char :=
  sepStrip (pathStemOfName (pathNameL filename.data))

/-- Does `(19|20)\d{2}` match at the head of the list? -/
def yearHead : List Char → Bool
  | c1 :: c2 :: a :: b :: _ =>
    ((c1 == '1' && c2 == '9') || (c1 == '2' && c2 == '0')) &&
      a.isDigit && b.isDigit
  | _ => false

/-- The trailing `\b` of the year pattern: the next character (if any) is
not a word character. -/
def afterOk : List Char → Bool
  | [] => true
  | c :: _ => !isWordChar c

/-- `(19|20)\d{2}\b` matches at the head of the list. -/
def yearCond (cs : List Char) : Bool :=
  yearHead cs && afterOk (cs.drop 4)

/-- Scan for the leftmost match of `\b(19|20)\d{2}\b`; `prevW` says whether
the character just before the current suffix is a word character (so the
leading `\b` holds exactly when `prevW` is false, since the year pattern
itself starts with a word character). -/
def findYearAux : List Char → Bool → Option Nat
  | [], _ => none
  | c :: rest, prevW =>
    if !prevW && yearCond (c :: rest) then some 0
    else (findYearAux rest (isWordChar c)).map (· + 1)

/-- `re.search(r"\b(19|20)\d{2}\b", name)`: index of the leftmost
standalone year token. -/
def findYear (cs : List Char) : Option Nat :=
  findYearAux cs false

/-- The leading-boundary test of `\b(19|20)\d{2}\b` at absolute position
`i`, phrased against the original list (`prevW` is the boundary state at
position 0). -/
def prevNonWord (prevW : Bool) (cs : List Char) : Nat → Bool
  | 0 => !prevW
  | j + 1 =>
    match cs.drop j with
    | c :: _ => !isWordChar c
    | [] => false

/-- `\b(19|20)\d{2}\b` matches at absolute position `i` of `cs` (with
boundary state `prevW` before position 0). -/
def tokAtP (cs : List Char) (prevW : Bool) (i : Nat) : Bool :=
  prevNonWord prevW cs i && yearCond (cs.drop i)

/-- A standalone 4-digit year token (1900-2099) occurs at position `i`. -/
def yearTokenAt (cs : List Char) (i : Nat) : Bool :=
  tokAtP cs false i

/-- The alternatives of the quality/encoding tag regex, in source order. -/
def TAGS : List String :=
  ["1080p", "720p", "480p", "4k", "2160p", "uhd", "bluray", "blu ray",
   "bdrip", "brrip", "webrip", "web dl", "web", "hdtv", "hdcam", "cam",
   "hdrip", "x264", "x265", "hevc", "avc", "aac", "dts", "ac3",
   "h264", "h265", "dvdrip", "dvdscr", "extended", "remastered",
   "theatrical", "proper", "yify", "yts", "rarbg", "10bit", "hdr",
   "dolby", "atmos", "directors cut", "unrated", "retail"]

/-- Case-insensitive literal prefix test (the pattern is lowercase). -/
def lcPrefixOf : List Char → List Char → Bool
  | [], _ => true
  | _ :: _, [] => false
  | p :: ps, c :: cs => (c.toLower == p) && lcPrefixOf ps cs

/-- `cs` contains no newline. -/
def noNl (cs : List Char) : Bool :=
  cs.all (fun c => !(c == '\n'))

/-- Can `.*$` (no DOTALL, no MULTILINE) consume this suffix?  Yes iff the
suffix has no newline, or its only newline is its final character. -/
def tailOk (cs : List Char) : Bool :=
  noNl cs || (cs.getLast? == some '\n' && noNl cs.dropLast)

/-- Some tag alternative matches literally here, followed by a tail that
`.*$` can consume. -/
def tagThenTailOk (cs : List Char) : Bool :=
  TAGS.any (fun t => lcPrefixOf t.data cs && tailOk (cs.drop t.length))

/-- `\s+(tags).*$` matches at the head of the list. -/
def spacesThenTagOk : List Char → Bool
  | [] => false
  | c :: rest => isSpaceCh c && (tagThenTailOk rest || spacesThenTagOk rest)

/-- Scan for the leftmost match of the tag-stripping regex and delete from
there; a match ending just before a final newline leaves that newline in
place (`endNl` records whether the whole string ends with a newline). -/
def stripTagsGo (endNl : Bool) : List Char → List Char
  | [] => []
  | c :: rest =>
    if spacesThenTagOk (c :: rest) then (if endNl then ['\n'] else [])
    else c :: stripTagsGo endNl rest

/-- `re.sub(r"\s+(1080p|...|retail).*$", "", title, flags=re.IGNORECASE)`. -/
def stripTagsSub (cs : List Char) : List Char :=
  stripTagsGo (cs.getLast? == some '\n') cs

/-- The character set of `.strip(" -[]()")`. -/
def STRIP_SET : List Char := [' ', '-', '[', ']', '(', ')']

/-- The characters removed everywhere by `re.sub(r"[\[\]()]", "", title)`. -/
def BRACKETS : List Char := ['[', ']', '(', ')']

/-- Python `str.strip(chars)`: drop the given characters from both ends. -/
def stripEnds (bad : Char → Bool) (cs : List Char) : List Char :=
  ((cs.dropWhile bad).reverse.dropWhile bad).reverse

/-- The provisional title and year of `parse_movie_name`: the year-token
split performed on `name`, before any tag stripping. -/
def provisionalOf (filename : String) : List Char × Option (List Char) :=
  let name := nameOf filename
  match findYear name with
  | some i => (trimL (name.take i), some ((name.drop i).take 4))
  | none => (name, none)

/-- The tag/character stripping phases applied to the provisional title:
tag regex sub, `.strip(" -[]()")`, `.strip()`, bracket removal, `.strip()`. -/
def stripPhases (t : List Char) : List Char :=
  let t1 := stripTagsSub t
  let t2 := trimL (stripEnds (fun c => STRIP_SET.contains c) t1)
  trimL (t2.filter (fun c => !(BRACKETS.contains c)))

/-- `parse_movie_name` from src/scraper/scraper.py. -/
def parse_movie_name (filename : String) : String × Option String :=
  let po := provisionalOf filename
  (String.mk (stripPhases po.1), po.2.map String.mk)

example : parse_movie_name "The.Matrix.1999.1080p.BluRay.x264.mkv" =
    ("The Matrix", some "1999") := by decide

example : parse_movie_name "_1080p.mkv" = ("", none) := by decide

example : parse_movie_name "2020.mkv" = ("", some "2020") := by decide

/-! ## TMDB resolver (`tmdb_search`) -/

/-- One raw result of the TMDB search API.  `none` fields model absent (or
null) JSON keys, read in the source through `m.get(...)`. -/
structure TMDBResult where
  title : Option String
  release_date : Option String
  overview : Option String
  id : Option Nat
  poster_path : Option String
  backdrop_path : Option String
deriving DecidableEq

/-- The normalized metadata record built by `tmdb_search` on a match. -/
structure TMDBInfo where
  title : String
  year : String
  overview : String
  tmdb_id : Option Nat
  poster_url : String
  backdrop_url : String
deriving DecidableEq

def TMDB_IMAGE_BASE : String := "https://image.tmdb.org/t/p/w500"

/-- The network oracle abstracting the HTTP retry loop of `tmdb_search`:
`net title yearParam` is `none` when all three attempts raised (the
`for ... else` path), and `some results` when some attempt succeeded with
the given result list.  One oracle call = one external search. -/
abbrev Net : Type := String → Option String → Option (List TMDBResult)

/-- The process-wide `_tmdb_cache`, as an association list (insertion
prepends; lookup takes the first hit, matching dict overwrite semantics). -/
abbrev Cache : Type := List (String × Option TMDBInfo)

/-- `f"{title}|||{year}"`: Python formats `None` as the string `None`. -/
def cacheKey (title : String) (year : Option String) : String :=
  title ++ "|||" ++ (match year with | none => "None" | some y => y)

/-- Dictionary lookup in the cache. -/
def cacheGet (c : Cache) (k : String) : Option (Option TMDBInfo) :=
  (c.find? (fun p => p.1 == k)).map (fun p => p.2)

/-- The `info = {...}` normalization block of `tmdb_search`, applied to the
first result `m`; `year` is the year argument of the enclosing call. -/
def mkInfo (title : String) (year : Option String) (m : TMDBResult) : TMDBInfo :=
  let rd := m.release_date.getD ""
  let y4 := String.mk (rd.data.take 4)
  { title := m.title.getD title
    year := if y4 ≠ "" then y4 else year.getD ""
    overview := String.mk ((m.overview.getD "").data.map
      (fun c => if c == '\"' then '\'' else c))
    tmdb_id := m.id
    poster_url :=
      match m.poster_path with
      | some p => if p ≠ "" then TMDB_IMAGE_BASE ++ p else ""
      | none => ""
    backdrop_url :=
      match m.backdrop_path with
      | some p => if p ≠ "" then TMDB_IMAGE_BASE ++ p else ""
      | none => "" }

/-- `tmdb_search(title, None)`: the source's function at `year=None`, where
the fallback branch is unreachable (`if not results and year` is false).
The returned `Nat` counts external searches (retry loops) performed.
The source's single recursive function is split into this base instance
and the general dispatcher `tmdb_search` below, whose only recursive call
is at `year=None`. -/
def tmdb_search_base (net : Net) (cache : Cache) (title : String) :
    Option TMDBInfo × Cache × Nat :=
  let k := cacheKey title none
  match cacheGet cache k with
  | some v => (v, cache, 0)
  | none =>
    match net title none with
    | none => (none, (k, none) :: cache, 1)
    | some [] => (none, (k, none) :: cache, 1)
    | some (m :: _) =>
      let info := mkInfo title none m
      (some info, (k, some info) :: cache, 1)

/-- `tmdb_search` from src/scraper/scraper.py.  A supplied year is put in
the request parameters only when truthy (nonempty); on a successful search
with zero results and a truthy year, the call falls back to the year-less
search, without caching under its own key. -/
def tmdb_search (net : Net) (cache : Cache) (title : String) :
    Option String → Option TMDBInfo × Cache × Nat
  | none => tmdb_search_base net cache title
  | some y =>
    let k := cacheKey title (some y)
    match cacheGet cache k with
    | some v => (v, cache, 0)
    | none =>
      let yP : Option String := if y = "" then none else some y
      match net title yP with
      | none => (none, (k, none) :: cache, 1)
      | some [] =>
        if y = "" then (none, (k, none) :: cache, 1)
        else
          let r := tmdb_search_base net cache title
          (r.1, r.2.1, r.2.2 + 1)
      | some (m :: _) =>
        let info := mkInfo title (some y) m
        (some info, (k, some info) :: cache, 1)

/-- Truthiness of the `year` argument (`if year:` in Python). -/
def yearTruthy : Option String → Bool
  | none => false
  | some y => !(y == "")

/-! ## Directory crawler (`crawl`) -/

/-- A discovered video file: one element of the crawler's result list. -/
structure Entry where
  url : String
  filename : String
  category : String
deriving DecidableEq

/-- Python `str.startswith` (`String.startsWith` of core Lean is not used
because its byte-position loop does not reduce definitionally). -/
def strStarts (s pre : String) : Bool :=
  pre.data.isPrefixOf s.data

/-- Python `str.endswith`. -/
def strEnds (s suf : String) : Bool :=
  suf.data.isSuffixOf s.data

/-- Python `str.lower` (ASCII). -/
def lowerStr (s : String) : String :=
  String.mk (s.data.map Char.toLower)

/-- The environment of the crawler: the HTTP fetch (`none` models a
request failure, `some hrefs` the anchor href values of the fetched
listing page), `urllib.parse.urljoin`, `urllib.parse.unquote`, and the
configured base URL. -/
structure CrawlEnv where
  fetch : String → Option (List String)
  join : String → String → String
  dec : String → String
  base : String

def VIDEO_EXTENSIONS : List String :=
  [".mkv", ".mp4", ".avi", ".mov", ".m4v", ".ts", ".wmv", ".divx", ".flv"]

def SKIP_FOLDERS : List String := ["..", ".", ""]

def MAX_CATEGORY_DEPTH : Nat := 2

/-- The category-path update for a folder: the folder name is appended
only while `depth < MAX_CATEGORY_DEPTH`. -/
def new_parts (depth : Nat) (parts : List String) (folder : String) :
    List String :=
  if depth < MAX_CATEGORY_DEPTH then parts ++ [folder] else parts

/-- `" > ".join(category_parts)`. -/
def joinCats : List String → String
  | [] => ""
  | [p] => p
  | p :: rest => p ++ " > " ++ joinCats rest

/-- `" > ".join(category_parts) if category_parts else "Movies"`. -/
def categoryOf (parts : List String) : String :=
  if parts.isEmpty then "Movies" else joinCats parts

/-- `href.rstrip("/")`. -/
def rstripSlashStr (s : String) : String :=
  String.mk ((s.data.reverse.dropWhile (fun c => c == '/')).reverse)

/-- `Path(decoded_name).suffix.lower()`. -/
def extLower (decoded_name : String) : String :=
  String.mk ((pathSuffixOfName (pathNameL decoded_name.data)).map Char.toLower)

/-- The body of the link loop of `crawl`: process each href of a fetched
page in order; `recur` is the recursive call into a sub-folder (`crawl`
one fuel level down), so that the mutual recursion of the source is
structural here. -/
def crawlLinks (env : CrawlEnv) (recur : String → Nat → List String → List Entry)
    (url : String) (depth : Nat) (parts : List String) :
    List String → List Entry
  | [] => []
  | hrefRaw :: rest =>
    let href := trimStr hrefRaw
    let here :=
      if href ∈ (["../", "..", "/", ""] : List String) then []
      else if strStarts href "?" then []
      else if strStarts href "#" then []
      else if strStarts href "http" && !(strStarts href env.base) then []
      else
        let full_url := env.join url href
        let decoded_name := env.dec (rstripSlashStr href)
        if strStarts full_url env.base then
          if strEnds href "/" then
            if decoded_name ∈ SKIP_FOLDERS then []
            else recur full_url (depth + 1) (new_parts depth parts decoded_name)
          else
            if extLower decoded_name ∈ VIDEO_EXTENSIONS then
              [{ url := full_url, filename := decoded_name,
                 category := categoryOf parts }]
            else []
        else []
    here ++ crawlLinks env recur url depth parts rest

/-- `crawl` from src/scraper/scraper.py, with a fuel bound on the
recursion depth (the source recurses without bound on an assumed-acyclic
tree; theorems below hold for every fuel value). -/
def crawl (env : CrawlEnv) : Nat → String → Nat → List String → List Entry
  | 0, _, _, _ => []
  | n + 1, url, depth, parts =>
    match env.fetch url with
    | none => []
    | some links => crawlLinks env (crawl env n) url depth parts links

/-! ## Playlist builder (`build_m3u`) and main -/

/-- The lowercased (category, filename) sort key. -/
def entryKey (e : Entry) : String × String :=
  (lowerStr e.category, lowerStr e.filename)

/-- Python string `<=`: lexicographic on code points, a proper prefix is
smaller. -/
def lexLe : List Char → List Char → Bool
  | [], _ => true
  | _ :: _, [] => false
  | a :: as, b :: bs => if a = b then lexLe as bs else decide (a < b)

/-- Python string `<`: lexicographic on code points. -/
def lexLt : List Char → List Char → Bool
  | [], [] => false
  | [], _ :: _ => true
  | _ :: _, [] => false
  | a :: as, b :: bs => if a = b then lexLt as bs else decide (a < b)

/-- Python tuple comparison of the sort keys: lexicographic on
(category lowercased, filename lowercased). -/
def entryLE (a b : Entry) : Bool :=
  if lowerStr a.category = lowerStr b.category then
    lexLe (lowerStr a.filename).data (lowerStr b.filename).data
  else lexLt (lowerStr a.category).data (lowerStr b.category).data

/-- `sorted(files, key=lambda f: (f["category"].lower(), f["filename"].lower()))`
(Python's sort and `List.mergeSort` are both stable). -/
def sortEntries (files : List Entry) : List Entry :=
  files.mergeSort entryLE

/-- `f'#EXTINF:-1 tvg-name="..." tvg-logo="..." group-title="..."
tvg-plot="...",...'`. -/
def extinfLine (display logo group overview : String) : String :=
  "#EXTINF:-1 tvg-name=\"" ++ display ++ "\" tvg-logo=\"" ++ logo ++
    "\" group-title=\"" ++ group ++ "\" tvg-plot=\"" ++ overview ++ "\"," ++
    display

/-- The three lines appended for one entry: metadata line, URL line,
blank line. -/
def recordLines (info? : Option TMDBInfo) (title : String)
    (year : Option String) (e : Entry) : List String :=
  match info? with
  | some info =>
    let display :=
      if info.year ≠ "" then info.title ++ " (" ++ info.year ++ ")"
      else info.title
    let logo := if info.poster_url ≠ "" then info.poster_url else info.backdrop_url
    [extinfLine display logo e.category info.overview, e.url, ""]
  | none =>
    let display :=
      match year with
      | some y => if y ≠ "" then title ++ " (" ++ y ++ ")" else title
      | none => title
    [extinfLine display "" (e.category ++ " [Unmatched]") "", e.url, ""]

/-- The per-entry loop of `build_m3u`: parse, resolve (threading the
cache), and append the three lines of each record. -/
def buildEntries (net : Net) : List Entry → Cache → List String × Cache
  | [], c => ([], c)
  | e :: rest, c =>
    let ty := parse_movie_name e.filename
    let res := tmdb_search net c ty.1 ty.2
    let tl := buildEntries net rest res.2.1
    (recordLines res.1 ty.1 ty.2 e ++ tl.1, tl.2)

/-- The full line list of `build_m3u`: header, then records in sorted
order. -/
def build_m3u_lines (net : Net) (files : List Entry) (cache : Cache) :
    List String × Cache :=
  let bd := buildEntries net (sortEntries files) cache
  ("#EXTM3U\n" :: bd.1, bd.2)

/-- `build_m3u` from src/scraper/scraper.py: the joined playlist text
(and the cache state after the run). -/
def build_m3u (net : Net) (files : List Entry) (cache : Cache) :
    String × Cache :=
  let bl := build_m3u_lines net files cache
  (String.intercalate "\n" bl.1, bl.2)

/-- The `__main__` block: crawl from the base URL; with no files, exit
status 1 and no output file; otherwise write the playlist and exit 0.
The pair is (exit status, content written to the output path, if any). -/
def mainRun (env : CrawlEnv) (net : Net) (fuel : Nat) : Nat × Option String :=
  let files := crawl env fuel env.base 0 []
  if files.isEmpty then (1, none)
  else (0, some (build_m3u net files []).1)

/-! ## Lemmas about the year-token search -/

lemma tokAtP_cons (c : Char) (rest : List Char) (prevW : Bool) (j : Nat) :
    tokAtP (c :: rest) prevW (j + 1) = tokAtP rest (isWordChar c) j := by
  cases j with
  | zero => rfl
  | succ k => rfl

lemma tokAtP_zero (cs : List Char) (prevW : Bool) :
    tokAtP cs prevW 0 = (!prevW && yearCond cs) := rfl

/-- Soundness and minimality of the scan: a returned index is a match
position, and no earlier position matches. -/
lemma findYearAux_some {cs : List Char} {prevW : Bool} {i : Nat}
    (h : findYearAux cs prevW = some i) :
    tokAtP cs prevW i = true ∧ ∀ j, j < i → tokAtP cs prevW j = false := by
  induction cs generalizing prevW i with
  | nil => simp [findYearAux] at h
  | cons c rest ih =>
    rw [findYearAux] at h
    cases hguard : (!prevW && yearCond (c :: rest)) with
    | true =>
      rw [if_pos hguard] at h
      cases h
      exact ⟨by rw [tokAtP_zero]; exact hguard, fun j hj => absurd hj (Nat.not_lt_zero j)⟩
    | false =>
      rw [if_neg (by simp [hguard])] at h
      cases hrec : findYearAux rest (isWordChar c) with
      | none => rw [hrec] at h; simp at h
      | some j0 =>
        rw [hrec] at h
        simp only [Option.map_some', Option.some.injEq] at h
        obtain ⟨h1, h2⟩ := ih hrec
        subst h
        refine ⟨by rw [tokAtP_cons]; exact h1, ?_⟩
        intro j hj
        cases j with
        | zero => rw [tokAtP_zero]; exact hguard
        | succ k => rw [tokAtP_cons]; exact h2 k (Nat.lt_of_succ_lt_succ hj)

/-- Completeness of the scan: if some position matches, the scan returns a
position no larger. -/
lemma findYearAux_of_tokAtP {cs : List Char} {prevW : Bool} {i : Nat}
    (h : tokAtP cs prevW i = true) :
    ∃ j, j ≤ i ∧ findYearAux cs prevW = some j := by
  induction cs generalizing prevW i with
  | nil =>
    exfalso
    simp [tokAtP, yearCond, yearHead, List.drop_nil] at h
  | cons c rest ih =>
    cases hguard : (!prevW && yearCond (c :: rest)) with
    | true => exact ⟨0, Nat.zero_le i, by rw [findYearAux, if_pos hguard]⟩
    | false =>
      cases i with
      | zero => rw [tokAtP_zero, hguard] at h; exact absurd h (by simp)
      | succ k =>
        rw [tokAtP_cons] at h
        obtain ⟨j, hj, hfy⟩ := ih h
        refine ⟨j + 1, Nat.succ_le_succ hj, ?_⟩
        rw [findYearAux, if_neg (by simp [hguard]), hfy]
        rfl

/-! ## Sublist facts about the stripping phases -/

lemma stripEnds_sublist (bad : Char → Bool) (cs : List Char) :
    List.Sublist (stripEnds bad cs) cs := by
  unfold stripEnds
  have h3 : List.Sublist ((cs.dropWhile bad).reverse.dropWhile bad)
      ((cs.dropWhile bad).reverse) := List.dropWhile_sublist bad
  have h4 := h3.reverse
  rw [List.reverse_reverse] at h4
  exact h4.trans (List.dropWhile_sublist bad)

lemma trimL_sublist (cs : List Char) : List.Sublist (trimL cs) cs :=
  stripEnds_sublist isSpaceCh cs

lemma stripTagsGo_sublist :
    ∀ (cs : List Char) (endNl : Bool),
      (endNl = true → cs.getLast? = some '\n') → List.Sublist (stripTagsGo endNl cs) cs := by
  intro cs
  induction cs with
  | nil => intro endNl _; simp [stripTagsGo]
  | cons c rest ih =>
    intro endNl h
    rw [stripTagsGo]
    split
    · cases endNl with
      | true =>
        simp only [if_pos]
        exact List.singleton_sublist.mpr (List.mem_of_getLast?_eq_some (h rfl))
      | false => simp
    · apply List.Sublist.cons₂
      cases rest with
      | nil => simp [stripTagsGo]
      | cons d ds =>
        apply ih
        intro he
        have hc := h he
        rwa [List.getLast?_cons_cons] at hc

lemma stripTagsSub_sublist (cs : List Char) : List.Sublist (stripTagsSub cs) cs := by
  apply stripTagsGo_sublist
  intro h
  simpa using h

lemma stripPhases_sublist (t : List Char) : List.Sublist (stripPhases t) t := by
  unfold stripPhases
  refine (trimL_sublist _).trans ?_
  refine (List.filter_sublist _).trans ?_
  refine (trimL_sublist _).trans ?_
  exact (stripEnds_sublist _ _).trans (stripTagsSub_sublist t)

/-! ## The two branches of `parse_movie_name` -/

lemma provisionalOf_pos {filename : String} {i : Nat}
    (h : findYear (nameOf filename) = some i) :
    provisionalOf filename =
      (trimL ((nameOf filename).take i),
       some (((nameOf filename).drop i).take 4)) := by
  simp only [provisionalOf, h]

lemma provisionalOf_neg {filename : String}
    (h : findYear (nameOf filename) = none) :
    provisionalOf filename = (nameOf filename, none) := by
  simp only [provisionalOf, h]

lemma parse_year_eq {filename : String} {i : Nat}
    (h : findYear (nameOf filename) = some i) :
    (parse_movie_name filename).2 =
      some (String.mk (((nameOf filename).drop i).take 4)) ∧
    (parse_movie_name filename).1.data =
      stripPhases (trimL ((nameOf filename).take i)) := by
  simp only [parse_movie_name, provisionalOf_pos h]
  constructor <;> trivial

lemma parse_year_none {filename : String}
    (h : findYear (nameOf filename) = none) :
    (parse_movie_name filename).2 = none := by
  simp only [parse_movie_name, provisionalOf_neg h]
  rfl

/-! ## Claims about the filename parser -/

/-- C1 (counterexample): the claim "parse_movie_name returns a non-empty
title; if the tag-stripping phase removes everything, the pre-strip
provisional title is returned instead of an empty string" is false: on
`"_1080p.mkv"` the provisional title is nonempty (`" 1080p"`), stripping
removes everything, and the empty string is returned. -/
theorem parse_movie_name_empty_title_cex :
    (parse_movie_name "_1080p.mkv").1 = "" ∧
    (provisionalOf "_1080p.mkv").1 ≠ [] := by
  constructor
  · decide
  · decide

/-- C1 (amended): `parse_movie_name` has no fallback to the pre-strip
provisional title: the returned title is empty exactly when the stripping
phases erase the provisional title. -/
theorem parse_movie_name_title_iff_strip (filename : String) :
    (parse_movie_name filename).1 = "" ↔
    stripPhases (provisionalOf filename).1 = [] := by
  have he : (parse_movie_name filename).1 =
      String.mk (stripPhases (provisionalOf filename).1) := by
    simp only [parse_movie_name]
  rw [he]
  constructor
  · intro h
    have hd := congrArg String.data h
    simpa using hd
  · intro h
    rw [h]

/-- Shape of a matched year token: 4 characters, all digits, starting
with 19 or 20. -/
lemma yearHead_shape : ∀ {cs : List Char}, yearHead cs = true →
    (cs.take 4).length = 4 ∧
    (cs.take 2 = ['1', '9'] ∨ cs.take 2 = ['2', '0']) ∧
    ∀ c ∈ cs.take 4, c.isDigit
  | [], h => absurd h (by decide)
  | [_], h => absurd h (by simp [yearHead])
  | [_, _], h => absurd h (by simp [yearHead])
  | [_, _, _], h => absurd h (by simp [yearHead])
  | c1 :: c2 :: a :: b :: tl, h => by
    simp only [yearHead, Bool.and_eq_true, Bool.or_eq_true, beq_iff_eq] at h
    obtain ⟨⟨h12, ha⟩, hb⟩ := h
    refine ⟨by simp, ?_, ?_⟩
    · rcases h12 with ⟨e1, e2⟩ | ⟨e1, e2⟩ <;> subst e1 <;> subst e2 <;> simp
    · intro c hc
      simp only [List.take_succ_cons, List.take_zero, List.mem_cons,
        List.not_mem_nil, or_false] at hc
      rcases hc with rfl | rfl | rfl | rfl
      · rcases h12 with ⟨e1, _⟩ | ⟨e1, _⟩ <;> subst e1 <;> decide
      · rcases h12 with ⟨_, e2⟩ | ⟨_, e2⟩ <;> subst e2 <;> decide
      · exact ha
      · exact hb

/-- C9: the year returned by `parse_movie_name` is either absent or a
string of exactly 4 decimal digits whose first two characters are "19" or
"20". -/
theorem parse_movie_name_year_shape (filename : String) :
    (parse_movie_name filename).2 = none ∨
    ∃ y : String, (parse_movie_name filename).2 = some y ∧
      y.length = 4 ∧
      (y.data.take 2 = ['1', '9'] ∨ y.data.take 2 = ['2', '0']) ∧
      ∀ c ∈ y.data, c.isDigit := by
  cases hfy : findYear (nameOf filename) with
  | none => exact Or.inl (parse_year_none hfy)
  | some i =>
    right
    have h1 := (findYearAux_some hfy).1
    have hyc : yearCond ((nameOf filename).drop i) = true := by
      have h2 := h1
      unfold tokAtP at h2
      exact (Bool.and_eq_true _ _ |>.mp h2).2
    have hyh : yearHead ((nameOf filename).drop i) = true := by
      unfold yearCond at hyc
      exact (Bool.and_eq_true _ _ |>.mp hyc).1
    obtain ⟨hlen, h2, hdig⟩ := yearHead_shape hyh
    refine ⟨String.mk (((nameOf filename).drop i).take 4),
      (parse_year_eq hfy).1, ?_, ?_, ?_⟩
    · simpa [String.length] using hlen
    · simpa [List.take_take] using h2
    · intro c hc
      exact hdig c hc

/-- C3: if the dot/underscore-stripped, extension-stripped form of the
filename contains a standalone 4-digit token beginning with 19 or 20,
then `parse_movie_name` returns the first such token as the year, and the
returned title is drawn only from the text before that token. -/
theorem parse_movie_name_year_split (filename : String) (i : Nat)
    (h : yearTokenAt (nameOf filename) i = true) :
    ∃ i0, i0 ≤ i ∧ yearTokenAt (nameOf filename) i0 = true ∧
      (∀ j, j < i0 → yearTokenAt (nameOf filename) j = false) ∧
      (parse_movie_name filename).2 =
        some (String.mk (((nameOf filename).drop i0).take 4)) ∧
      List.Sublist (parse_movie_name filename).1.data
        ((nameOf filename).take i0) := by
  obtain ⟨j, hj, hfy⟩ := findYearAux_of_tokAtP h
  obtain ⟨ht, hmin⟩ := findYearAux_some hfy
  have hfy2 : findYear (nameOf filename) = some j := hfy
  refine ⟨j, hj, ht, hmin, (parse_year_eq hfy2).1, ?_⟩
  rw [(parse_year_eq hfy2).2]
  exact (stripPhases_sublist _).trans (trimL_sublist _)

/-- C3 (witness): the spec's own example filename, whose stripped form
has its year token at index 11. -/
theorem parse_movie_name_year_split_witness :
    yearTokenAt (nameOf "The.Matrix.1999.1080p.BluRay.x264.mkv") 11 = true ∧
    ∃ i0, i0 ≤ 11 ∧
      yearTokenAt (nameOf "The.Matrix.1999.1080p.BluRay.x264.mkv") i0 = true ∧
      (∀ j, j < i0 →
        yearTokenAt (nameOf "The.Matrix.1999.1080p.BluRay.x264.mkv") j = false) ∧
      (parse_movie_name "The.Matrix.1999.1080p.BluRay.x264.mkv").2 =
        some (String.mk
          (((nameOf "The.Matrix.1999.1080p.BluRay.x264.mkv").drop i0).take 4)) ∧
      List.Sublist
        (parse_movie_name "The.Matrix.1999.1080p.BluRay.x264.mkv").1.data
        ((nameOf "The.Matrix.1999.1080p.BluRay.x264.mkv").take i0) :=
  ⟨by decide,
   parse_movie_name_year_split "The.Matrix.1999.1080p.BluRay.x264.mkv" 11
     (by decide)⟩

/-! ## Crawler invariants -/

/-- Entries produced by one page's link list satisfy `P`, given that the
invariant `inv` holds here, is preserved into sub-folders, and forces `P`
at each file emission; `recur` is the sub-folder recursion. -/
lemma crawlLinks_pred (env : CrawlEnv)
    (recur : String → Nat → List String → List Entry)
    (inv : Nat → List String → Prop) (P : Entry → Prop)
    (hstep : ∀ d p f, inv d p → f ∉ SKIP_FOLDERS →
      inv (d + 1) (new_parts d p f))
    (hemit : ∀ d p u fn, inv d p → strStarts u env.base = true →
      extLower fn ∈ VIDEO_EXTENSIONS → P ⟨u, fn, categoryOf p⟩)
    (hrec : ∀ u d p, inv d p → ∀ e ∈ recur u d p, P e) :
    ∀ links url depth parts, inv depth parts →
      ∀ e ∈ crawlLinks env recur url depth parts links, P e := by
  intro links
  induction links with
  | nil =>
    intro url depth parts _ e he
    simp [crawlLinks] at he
  | cons hrefRaw rest ih =>
    intro url depth parts hinv e he
    simp only [crawlLinks, List.mem_append] at he
    rcases he with h | h
    · split at h
      · simp at h
      · split at h
        · simp at h
        · split at h
          · simp at h
          · split at h
            · simp at h
            · split at h
              case isTrue hfull =>
                split at h
                · split at h
                  · simp at h
                  case isFalse hskip =>
                    exact hrec _ _ _ (hstep _ _ _ hinv hskip) e h
                · split at h
                  case isTrue hext =>
                    rw [List.mem_singleton] at h
                    subst h
                    exact hemit _ _ _ _ hinv hfull hext
                  · simp at h
              · simp at h
    · exact ih url depth parts hinv e h

/-- Lifting `crawlLinks_pred` through the fuel recursion of `crawl`. -/
lemma crawl_pred (env : CrawlEnv)
    (inv : Nat → List String → Prop) (P : Entry → Prop)
    (hstep : ∀ d p f, inv d p → f ∉ SKIP_FOLDERS →
      inv (d + 1) (new_parts d p f))
    (hemit : ∀ d p u fn, inv d p → strStarts u env.base = true →
      extLower fn ∈ VIDEO_EXTENSIONS → P ⟨u, fn, categoryOf p⟩) :
    ∀ fuel url depth parts, inv depth parts →
      ∀ e ∈ crawl env fuel url depth parts, P e := by
  intro fuel
  induction fuel with
  | zero =>
    intro url depth parts _ e he
    simp [crawl] at he
  | succ n ih =>
    intro url depth parts hinv e he
    rw [crawl] at he
    cases hfetch : env.fetch url with
    | none => rw [hfetch] at he; simp at he
    | some links =>
      rw [hfetch] at he
      exact crawlLinks_pred env (crawl env n) inv P hstep hemit
        (fun u d p hi => ih u d p hi) links url depth parts hinv e he

/-- C5: the category path gains a folder name exactly while
`depth < MAX_CATEGORY_DEPTH`; deeper folders keep the accumulated path
unchanged, so every emitted entry's category is built from at most
`MAX_CATEGORY_DEPTH` folder names. -/
theorem crawl_category_depth :
    (∀ d p f, d < MAX_CATEGORY_DEPTH → new_parts d p f = p ++ [f]) ∧
    (∀ d p f, MAX_CATEGORY_DEPTH ≤ d → new_parts d p f = p) ∧
    ∀ (env : CrawlEnv) (fuel : Nat) (url : String) (depth : Nat)
      (parts : List String),
      parts.length ≤ depth → parts.length ≤ MAX_CATEGORY_DEPTH →
      ∀ e ∈ crawl env fuel url depth parts,
        ∃ ps : List String, ps.length ≤ MAX_CATEGORY_DEPTH ∧
          e.category = categoryOf ps := by
  refine ⟨?_, ?_, ?_⟩
  · intro d p f h
    simp [new_parts, h]
  · intro d p f h
    simp [new_parts, Nat.not_lt.mpr h]
  · intro env fuel url depth parts h1 h2 e he
    refine crawl_pred env
      (fun d p => p.length ≤ d ∧ p.length ≤ MAX_CATEGORY_DEPTH)
      (fun e => ∃ ps : List String, ps.length ≤ MAX_CATEGORY_DEPTH ∧
        e.category = categoryOf ps)
      ?_ ?_ fuel url depth parts ⟨h1, h2⟩ e he
    · intro d p f hi _
      unfold new_parts
      split
      case isTrue hd =>
        refine ⟨?_, ?_⟩ <;> simp only [List.length_append, List.length_cons,
          List.length_nil] <;> omega
      · exact ⟨by omega, hi.2⟩
    · intro d p u fn hi _ _
      exact ⟨p, hi.2, rfl⟩

/-- A concrete two-level listing used to witness the crawler claims. -/
def demoEnv : CrawlEnv where
  fetch := fun u =>
    if u = "http://b/" then some ["Action/"]
    else if u = "http://b/Action/" then some ["x.mkv"]
    else none
  join := fun u h => u ++ h
  dec := fun s => s
  base := "http://b/"

/-- C5 (witness): the demo crawl emits the file found under `Action/`
with a category built from at most `MAX_CATEGORY_DEPTH` folder names. -/
theorem crawl_category_depth_witness :
    (([] : List String).length ≤ 0 ∧
     ([] : List String).length ≤ MAX_CATEGORY_DEPTH ∧
     (⟨"http://b/Action/x.mkv", "x.mkv", "Action"⟩ : Entry) ∈
       crawl demoEnv 2 "http://b/" 0 []) ∧
    ∃ ps : List String, ps.length ≤ MAX_CATEGORY_DEPTH ∧
      (Entry.mk "http://b/Action/x.mkv" "x.mkv" "Action").category =
        categoryOf ps :=
  ⟨⟨by decide, by decide, by decide⟩,
   crawl_category_depth.2.2 demoEnv 2 "http://b/" 0 [] (by decide) (by decide)
     (Entry.mk "http://b/Action/x.mkv" "x.mkv" "Action") (by decide)⟩

/-- `" > ".join` of a nonempty list of nonempty folder names is not
empty. -/
lemma categoryOf_ne_empty (ps : List String) (h : ∀ x ∈ ps, x ≠ "") :
    categoryOf ps ≠ "" := by
  match ps with
  | [] => decide
  | [p] =>
    have hp : p ≠ "" := h p (by simp)
    simpa [categoryOf, joinCats] using hp
  | p :: q :: rest =>
    intro hcon
    simp only [categoryOf, List.isEmpty_cons, Bool.false_eq_true,
      if_false, joinCats] at hcon
    have hlen := congrArg String.length hcon
    rw [String.length_append, String.length_append] at hlen
    have h3 : (" > " : String).length = 3 := rfl
    have h0 : ("" : String).length = 0 := rfl
    omega

/-- C10: every entry emitted by `crawl` has a URL extending the base URL,
a filename whose lowercased extension is a recognized video extension,
and a non-empty category. -/
theorem crawl_entry_wellformed (env : CrawlEnv) (fuel : Nat) (url : String)
    (depth : Nat) (parts : List String) (hp : ∀ p ∈ parts, p ≠ "") :
    ∀ e ∈ crawl env fuel url depth parts,
      strStarts e.url env.base = true ∧
      extLower e.filename ∈ VIDEO_EXTENSIONS ∧
      e.category ≠ "" := by
  refine crawl_pred env (fun _ p => ∀ x ∈ p, x ≠ "")
    (fun e => strStarts e.url env.base = true ∧
      extLower e.filename ∈ VIDEO_EXTENSIONS ∧ e.category ≠ "")
    ?_ ?_ fuel url depth parts hp
  · intro d p f hi hskip x hx
    unfold new_parts at hx
    split at hx
    · rcases List.mem_append.mp hx with hx1 | hx1
      · exact hi x hx1
      · rw [List.mem_singleton] at hx1
        subst hx1
        intro hx0
        apply hskip
        rw [hx0]
        decide
    · exact hi x hx
  · intro d p u fn hi hfull hext
    exact ⟨hfull, hext, categoryOf_ne_empty p hi⟩

/-- C10 (witness): the demo crawl's entry satisfies all three
well-formedness properties. -/
theorem crawl_entry_wellformed_witness :
    (∀ p ∈ ([] : List String), p ≠ "") ∧
    (strStarts (Entry.mk "http://b/Action/x.mkv" "x.mkv" "Action").url
        demoEnv.base = true ∧
     extLower (Entry.mk "http://b/Action/x.mkv" "x.mkv" "Action").filename ∈
        VIDEO_EXTENSIONS ∧
     (Entry.mk "http://b/Action/x.mkv" "x.mkv" "Action").category ≠ "") :=
  ⟨by simp,
   crawl_entry_wellformed demoEnv 2 "http://b/" 0 [] (by simp)
     (Entry.mk "http://b/Action/x.mkv" "x.mkv" "Action") (by decide)⟩

/-! ## Resolver lemmas -/

lemma cacheGet_cons_self (c : Cache) (k : String) (v : Option TMDBInfo) :
    cacheGet ((k, v) :: c) k = some v := by
  simp [cacheGet]

lemma cacheGet_cons_ne (c : Cache) (k k2 : String) (v : Option TMDBInfo)
    (h : k2 ≠ k) : cacheGet ((k, v) :: c) k2 = cacheGet c k2 := by
  have hb : (k == k2) = false := beq_eq_false_iff_ne.mpr (Ne.symm h)
  simp [cacheGet, List.find?, hb]

lemma tmdb_base_hit {net : Net} {cache : Cache} {title : String}
    {v : Option TMDBInfo}
    (h : cacheGet cache (cacheKey title none) = some v) :
    tmdb_search_base net cache title = (v, cache, 0) := by
  simp only [tmdb_search_base, h]

lemma tmdb_base_fail {net : Net} {cache : Cache} {title : String}
    (hk : cacheGet cache (cacheKey title none) = none)
    (hn : net title none = none) :
    tmdb_search_base net cache title =
      (none, (cacheKey title none, none) :: cache, 1) := by
  simp only [tmdb_search_base, hk, hn]

lemma tmdb_base_empty {net : Net} {cache : Cache} {title : String}
    (hk : cacheGet cache (cacheKey title none) = none)
    (hn : net title none = some []) :
    tmdb_search_base net cache title =
      (none, (cacheKey title none, none) :: cache, 1) := by
  simp only [tmdb_search_base, hk, hn]

lemma tmdb_base_found {net : Net} {cache : Cache} {title : String}
    {m : TMDBResult} {tl : List TMDBResult}
    (hk : cacheGet cache (cacheKey title none) = none)
    (hn : net title none = some (m :: tl)) :
    tmdb_search_base net cache title =
      (some (mkInfo title none m),
       (cacheKey title none, some (mkInfo title none m)) :: cache, 1) := by
  simp only [tmdb_search_base, hk, hn]

/-- After any `year=None` lookup, the `(title, None)` key is cached with
the returned value. -/
lemma tmdb_base_caches (net : Net) (cache : Cache) (title : String) :
    cacheGet (tmdb_search_base net cache title).2.1 (cacheKey title none) =
      some (tmdb_search_base net cache title).1 := by
  cases hk : cacheGet cache (cacheKey title none) with
  | some v => rw [tmdb_base_hit hk]; exact hk
  | none =>
    cases hn : net title none with
    | none => rw [tmdb_base_fail hk hn]; exact cacheGet_cons_self _ _ _
    | some rs =>
      cases rs with
      | nil => rw [tmdb_base_empty hk hn]; exact cacheGet_cons_self _ _ _
      | cons m tl => rw [tmdb_base_found hk hn]; exact cacheGet_cons_self _ _ _

/-- A `year=None` lookup either leaves the cache unchanged or prepends
exactly its own key/value pair. -/
lemma tmdb_base_cache_shape (net : Net) (cache : Cache) (title : String) :
    (tmdb_search_base net cache title).2.1 = cache ∨
    (tmdb_search_base net cache title).2.1 =
      (cacheKey title none, (tmdb_search_base net cache title).1) :: cache := by
  cases hk : cacheGet cache (cacheKey title none) with
  | some v => rw [tmdb_base_hit hk]; left; rfl
  | none =>
    cases hn : net title none with
    | none => rw [tmdb_base_fail hk hn]; right; rfl
    | some rs =>
      cases rs with
      | nil => rw [tmdb_base_empty hk hn]; right; rfl
      | cons m tl => rw [tmdb_base_found hk hn]; right; rfl

lemma tmdb_some_hit {net : Net} {cache : Cache} {title y : String}
    {v : Option TMDBInfo}
    (h : cacheGet cache (cacheKey title (some y)) = some v) :
    tmdb_search net cache title (some y) = (v, cache, 0) := by
  simp only [tmdb_search, h]

lemma tmdb_some_fail {net : Net} {cache : Cache} {title y : String}
    (hk : cacheGet cache (cacheKey title (some y)) = none)
    (hn : net title (if y = "" then none else some y) = none) :
    tmdb_search net cache title (some y) =
      (none, (cacheKey title (some y), none) :: cache, 1) := by
  simp only [tmdb_search, hk, hn]

lemma tmdb_some_empty_falsy {net : Net} {cache : Cache} {title : String}
    (hk : cacheGet cache (cacheKey title (some "")) = none)
    (hn : net title none = some []) :
    tmdb_search net cache title (some "") =
      (none, (cacheKey title (some ""), none) :: cache, 1) := by
  simp only [tmdb_search, hk]
  simp [hn]

lemma tmdb_some_fallback {net : Net} {cache : Cache} {title y : String}
    (hk : cacheGet cache (cacheKey title (some y)) = none)
    (hy : y ≠ "")
    (hn : net title (some y) = some []) :
    tmdb_search net cache title (some y) =
      ((tmdb_search_base net cache title).1,
       (tmdb_search_base net cache title).2.1,
       (tmdb_search_base net cache title).2.2 + 1) := by
  simp only [tmdb_search, hk, if_neg hy, hn]

lemma tmdb_some_found {net : Net} {cache : Cache} {title y : String}
    {m : TMDBResult} {tl : List TMDBResult}
    (hk : cacheGet cache (cacheKey title (some y)) = none)
    (hn : net title (if y = "" then none else some y) = some (m :: tl)) :
    tmdb_search net cache title (some y) =
      (some (mkInfo title (some y) m),
       (cacheKey title (some y), some (mkInfo title (some y) m)) :: cache,
       1) := by
  simp only [tmdb_search, hk, hn]

/-- C2 (amended): on two successive `tmdb_search` calls with the same
`(title, year)`, the second returns the first's result and leaves the
cache unchanged, and issues at most one external search; it issues any
search at all only when the first call took the zero-results fallback
path with a truthy year (which does not cache its own key); in every
other case the second call is a pure cache hit with zero searches. -/
theorem tmdb_search_cache_second_call (net : Net) (cache : Cache)
    (title : String) (year : Option String) :
    (tmdb_search net (tmdb_search net cache title year).2.1 title year).1 =
      (tmdb_search net cache title year).1 ∧
    (tmdb_search net (tmdb_search net cache title year).2.1 title year).2.1 =
      (tmdb_search net cache title year).2.1 ∧
    (tmdb_search net (tmdb_search net cache title year).2.1 title year).2.2 ≤ 1 ∧
    ((tmdb_search net (tmdb_search net cache title year).2.1 title year).2.2 = 0 ∨
      ∃ y, year = some y ∧ y ≠ "" ∧
        cacheGet cache (cacheKey title year) = none ∧
        net title year = some []) := by
  cases year with
  | none =>
    have h2 := @tmdb_base_hit net _ _ _ (tmdb_base_caches net cache title)
    simp [tmdb_search, h2]
  | some y =>
    cases hk : cacheGet cache (cacheKey title (some y)) with
    | some v =>
      simp [tmdb_some_hit hk]
    | none =>
      cases hn : net title (if y = "" then none else some y) with
      | none =>
        have hhit := cacheGet_cons_self cache (cacheKey title (some y))
          (none : Option TMDBInfo)
        simp [tmdb_some_fail hk hn, tmdb_some_hit hhit]
      | some rs =>
        cases rs with
        | cons m tl =>
          have hhit := cacheGet_cons_self cache (cacheKey title (some y))
            (some (mkInfo title (some y) m))
          simp [tmdb_some_found hk hn, tmdb_some_hit hhit]
        | nil =>
          by_cases hy : y = ""
          · subst hy
            rw [if_pos rfl] at hn
            have hhit := cacheGet_cons_self cache (cacheKey title (some ""))
              (none : Option TMDBInfo)
            simp [tmdb_some_empty_falsy hk hn, tmdb_some_hit hhit]
          · rw [if_neg hy] at hn
            have E1 := tmdb_some_fallback hk hy hn
            by_cases hc1 : cacheGet (tmdb_search_base net cache title).2.1
                (cacheKey title (some y)) = none
            · have hbase2 := @tmdb_base_hit net _ _ _
                (tmdb_base_caches net cache title)
              have E2 := tmdb_some_fallback hc1 hy hn
              simp [E1, E2, hbase2, hy, hk, hn]
            · rcases tmdb_base_cache_shape net cache title with hs | hs
              · rw [hs] at hc1
                exact absurd hk hc1
              · by_cases hkk : cacheKey title (some y) = cacheKey title none
                · have hhit : cacheGet (tmdb_search_base net cache title).2.1
                      (cacheKey title (some y)) =
                      some (tmdb_search_base net cache title).1 := by
                    rw [hs, hkk]
                    exact cacheGet_cons_self _ _ _
                  simp [E1, tmdb_some_hit hhit]
                · have hmiss : cacheGet (tmdb_search_base net cache title).2.1
                      (cacheKey title (some y)) = none := by
                    rw [hs, cacheGet_cons_ne _ _ _ _ hkk]
                    exact hk
                  exact absurd hmiss hc1

/-- C2 (counterexample): with a world whose searches always succeed with
zero results, two successive calls for `("Unknown Movie Xyz", "1999")`
from an empty cache issue 3 external searches in total (2 by the first
call — filtered plus fallback — and 1 more by the second call, because
the fallback path did not cache the `(title, year)` key), violating "at
most one external search request in total". -/
theorem tmdb_search_cache_cex :
    ¬ ((tmdb_search ((fun _ _ => some []) : Net) []
          "Unknown Movie Xyz" (some "1999")).2.2 +
       (tmdb_search ((fun _ _ => some []) : Net)
          (tmdb_search ((fun _ _ => some []) : Net) []
            "Unknown Movie Xyz" (some "1999")).2.1
          "Unknown Movie Xyz" (some "1999")).2.2 ≤ 1) := by
  decide

/-- C6: on a cache miss with a truthy year whose filtered search succeeds
with zero results, `tmdb_search` performs exactly one year-less fallback
lookup (2 searches in total when the year-less key is also uncached),
returns that fallback's result, and declares no-match exactly when the
fallback also fails or yields no results. -/
theorem tmdb_search_fallback_once (net : Net) (cache : Cache)
    (title y : String)
    (hk : cacheGet cache (cacheKey title (some y)) = none)
    (hy : y ≠ "")
    (hn : net title (some y) = some [])
    (hk0 : cacheGet cache (cacheKey title none) = none) :
    (tmdb_search net cache title (some y)).2.2 = 2 ∧
    (tmdb_search net cache title (some y)).1 =
      (tmdb_search_base net cache title).1 ∧
    ((tmdb_search net cache title (some y)).1 = none ↔
      net title none = none ∨ net title none = some []) := by
  have E1 := tmdb_some_fallback hk hy hn
  cases hb : net title none with
  | none =>
    simp [E1, tmdb_base_fail hk0 hb, hb]
  | some rs =>
    cases rs with
    | nil =>
      simp [E1, tmdb_base_empty hk0 hb, hb]
    | cons m tl =>
      simp [E1, tmdb_base_found hk0 hb, hb]

/-- C6 (witness): the spec's Example 3 — a zero-result filtered search for
`("Unknown Movie Xyz", "1999")` triggers one year-less fallback before
declaring no-match. -/
theorem tmdb_search_fallback_once_witness :
    (cacheGet [] (cacheKey "Unknown Movie Xyz" (some "1999")) = none ∧
     "1999" ≠ "" ∧
     ((fun _ _ => some []) : Net) "Unknown Movie Xyz" (some "1999") = some [] ∧
     cacheGet [] (cacheKey "Unknown Movie Xyz" none) = none) ∧
    ((tmdb_search ((fun _ _ => some []) : Net) []
        "Unknown Movie Xyz" (some "1999")).2.2 = 2 ∧
     (tmdb_search ((fun _ _ => some []) : Net) []
        "Unknown Movie Xyz" (some "1999")).1 =
       (tmdb_search_base ((fun _ _ => some []) : Net) [] "Unknown Movie Xyz").1 ∧
     ((tmdb_search ((fun _ _ => some []) : Net) []
        "Unknown Movie Xyz" (some "1999")).1 = none ↔
       ((fun _ _ => some []) : Net) "Unknown Movie Xyz" none = none ∨
       ((fun _ _ => some []) : Net) "Unknown Movie Xyz" none = some [])) :=
  ⟨⟨by decide, by decide, rfl, by decide⟩,
   tmdb_search_fallback_once ((fun _ _ => some []) : Net) []
     "Unknown Movie Xyz" "1999" (by decide) (by decide) rfl (by decide)⟩

/-! ## Builder lemmas and claims -/

lemma recordLines_len (info? : Option TMDBInfo) (title : String)
    (year : Option String) (e : Entry) :
    (recordLines info? title year e).length = 3 := by
  cases info? <;> rfl

lemma buildEntries_len (net : Net) :
    ∀ (l : List Entry) (c : Cache),
      (buildEntries net l c).1.length = 3 * l.length := by
  intro l
  induction l with
  | nil => intro c; rfl
  | cons e rest ih =>
    intro c
    simp only [buildEntries, List.length_append, recordLines_len, ih,
      List.length_cons]
    omega

/-- C4: `build_m3u` emits the header line plus exactly three lines (one
metadata line, one URL line, one blank line) per input entry, matched or
not — no entry is dropped or duplicated. -/
theorem build_m3u_record_count (net : Net) (files : List Entry)
    (cache : Cache) :
    (build_m3u_lines net files cache).1.length = 1 + 3 * files.length := by
  simp only [build_m3u_lines, List.length_cons, buildEntries_len,
    sortEntries, List.length_mergeSort]
  omega

lemma lexLe_refl : ∀ l : List Char, lexLe l l = true
  | [] => rfl
  | a :: as => by simp [lexLe, lexLe_refl as]

lemma lexLt_irrefl : ∀ l : List Char, lexLt l l = false
  | [] => rfl
  | a :: as => by simp [lexLt, lexLt_irrefl as]

lemma lexLe_trans : ∀ l1 l2 l3 : List Char,
    lexLe l1 l2 = true → lexLe l2 l3 = true → lexLe l1 l3 = true
  | [], _, _, _, _ => rfl
  | _ :: _, [], _, h1, _ => by simp [lexLe] at h1
  | _ :: _, _ :: _, [], _, h2 => by simp [lexLe] at h2
  | a :: as, b :: bs, c :: cs, h1, h2 => by
    simp only [lexLe] at h1 h2 ⊢
    by_cases hab : a = b
    · subst hab
      rw [if_pos rfl] at h1
      by_cases hac : a = c
      · subst hac
        rw [if_pos rfl] at h2 ⊢
        exact lexLe_trans as bs cs h1 h2
      · rw [if_neg hac] at h2 ⊢
        exact h2
    · rw [if_neg hab] at h1
      by_cases hbc : b = c
      · subst hbc
        rw [if_neg hab]
        exact h1
      · rw [if_neg hbc] at h2
        have h1h := of_decide_eq_true h1
        have h2h := of_decide_eq_true h2
        have hac : a ≠ c := by
          intro he
          subst he
          exact absurd (lt_trans h1h h2h) (lt_irrefl a)
        rw [if_neg hac]
        exact decide_eq_true (lt_trans h1h h2h)

lemma lexLt_trans : ∀ l1 l2 l3 : List Char,
    lexLt l1 l2 = true → lexLt l2 l3 = true → lexLt l1 l3 = true
  | [], [], _, h1, _ => by simp [lexLt] at h1
  | [], _ :: _, [], _, h2 => by simp [lexLt] at h2
  | [], _ :: _, _ :: _, _, _ => rfl
  | _ :: _, [], _, h1, _ => by simp [lexLt] at h1
  | _ :: _, _ :: _, [], _, h2 => by simp [lexLt] at h2
  | a :: as, b :: bs, c :: cs, h1, h2 => by
    simp only [lexLt] at h1 h2 ⊢
    by_cases hab : a = b
    · subst hab
      rw [if_pos rfl] at h1
      by_cases hac : a = c
      · subst hac
        rw [if_pos rfl] at h2 ⊢
        exact lexLt_trans as bs cs h1 h2
      · rw [if_neg hac] at h2 ⊢
        exact h2
    · rw [if_neg hab] at h1
      by_cases hbc : b = c
      · subst hbc
        rw [if_neg hab]
        exact h1
      · rw [if_neg hbc] at h2
        have h1h := of_decide_eq_true h1
        have h2h := of_decide_eq_true h2
        have hac : a ≠ c := by
          intro he
          subst he
          exact absurd (lt_trans h1h h2h) (lt_irrefl a)
        rw [if_neg hac]
        exact decide_eq_true (lt_trans h1h h2h)

lemma lexLt_asymm : ∀ l1 l2 : List Char,
    lexLt l1 l2 = true → lexLt l2 l1 = true → False
  | [], [], h1, _ => by simp [lexLt] at h1
  | [], _ :: _, _, h2 => by simp [lexLt] at h2
  | _ :: _, [], h1, _ => by simp [lexLt] at h1
  | a :: as, b :: bs, h1, h2 => by
    by_cases hab : a = b
    · subst hab
      simp only [lexLt, if_pos rfl] at h1 h2
      exact lexLt_asymm as bs h1 h2
    · simp only [lexLt, if_neg hab, if_neg (Ne.symm hab)] at h1 h2
      exact absurd (lt_trans (of_decide_eq_true h1) (of_decide_eq_true h2))
        (lt_irrefl a)

lemma lexLe_total : ∀ l1 l2 : List Char,
    lexLe l1 l2 = true ∨ lexLe l2 l1 = true
  | [], _ => Or.inl rfl
  | _ :: _, [] => Or.inr rfl
  | a :: as, b :: bs => by
    by_cases hab : a = b
    · subst hab
      rcases lexLe_total as bs with h | h
      · left
        simpa [lexLe] using h
      · right
        simpa [lexLe] using h
    · rcases lt_or_gt_of_ne hab with h | h
      · left
        simp [lexLe, if_neg hab, h]
      · right
        simp [lexLe, if_neg (Ne.symm hab), h]

lemma lexLe_ne_lt : ∀ l1 l2 : List Char,
    lexLe l1 l2 = true → l1 ≠ l2 → lexLt l1 l2 = true
  | [], [], _, hne => absurd rfl hne
  | [], _ :: _, _, _ => rfl
  | _ :: _, [], h1, _ => by simp [lexLe] at h1
  | a :: as, b :: bs, h1, hne => by
    by_cases hab : a = b
    · subst hab
      simp only [lexLe, if_pos rfl] at h1
      simp only [lexLt, if_pos rfl]
      refine lexLe_ne_lt as bs h1 ?_
      intro he
      exact hne (by rw [he])
    · simp only [lexLe, if_neg hab] at h1
      simp only [lexLt, if_neg hab]
      exact h1

/-- Strict version of the sort order: lexicographic on the lowercased
(category, filename) pair. -/
def entryLT (a b : Entry) : Prop :=
  lexLt (lowerStr a.category).data (lowerStr b.category).data = true ∨
  (lowerStr a.category = lowerStr b.category ∧
   lexLt (lowerStr a.filename).data (lowerStr b.filename).data = true)

lemma entryLE_true_iff (a b : Entry) :
    entryLE a b = true ↔
    (lowerStr a.category = lowerStr b.category ∧
      lexLe (lowerStr a.filename).data (lowerStr b.filename).data = true) ∨
    lexLt (lowerStr a.category).data (lowerStr b.category).data = true := by
  unfold entryLE
  split
  case isTrue h =>
    constructor
    · intro hf
      exact Or.inl ⟨h, hf⟩
    · intro hor
      rcases hor with ⟨_, hf⟩ | hlt
      · exact hf
      · rw [h, lexLt_irrefl] at hlt
        exact absurd hlt (by simp)
  case isFalse h =>
    constructor
    · intro hlt
      exact Or.inr hlt
    · intro hor
      rcases hor with ⟨he, _⟩ | hlt
      · exact absurd he h
      · exact hlt

lemma entryLE_trans (a b c : Entry) (hab : entryLE a b = true)
    (hbc : entryLE b c = true) : entryLE a c = true := by
  rcases (entryLE_true_iff a b).mp hab with ⟨e1, f1⟩ | l1
  · rcases (entryLE_true_iff b c).mp hbc with ⟨e2, f2⟩ | l2
    · exact (entryLE_true_iff a c).mpr
        (Or.inl ⟨e1.trans e2, lexLe_trans _ _ _ f1 f2⟩)
    · exact (entryLE_true_iff a c).mpr (Or.inr (by rw [e1]; exact l2))
  · rcases (entryLE_true_iff b c).mp hbc with ⟨e2, f2⟩ | l2
    · exact (entryLE_true_iff a c).mpr (Or.inr (by rw [← e2]; exact l1))
    · exact (entryLE_true_iff a c).mpr (Or.inr (lexLt_trans _ _ _ l1 l2))

lemma entryLE_total (a b : Entry) : entryLE a b || entryLE b a := by
  rw [Bool.or_eq_true]
  by_cases h : lowerStr a.category = lowerStr b.category
  · rcases lexLe_total (lowerStr a.filename).data (lowerStr b.filename).data
      with hf | hf
    · exact Or.inl ((entryLE_true_iff a b).mpr (Or.inl ⟨h, hf⟩))
    · exact Or.inr ((entryLE_true_iff b a).mpr (Or.inl ⟨h.symm, hf⟩))
  · have hd : (lowerStr a.category).data ≠ (lowerStr b.category).data :=
      fun he => h (String.toList_inj.mp he)
    rcases lexLe_total (lowerStr a.category).data (lowerStr b.category).data
      with hf | hf
    · exact Or.inl ((entryLE_true_iff a b).mpr
        (Or.inr (lexLe_ne_lt _ _ hf hd)))
    · exact Or.inr ((entryLE_true_iff b a).mpr
        (Or.inr (lexLe_ne_lt _ _ hf (Ne.symm hd))))

lemma entryLT_asymm {a b : Entry} (h1 : entryLT a b) (h2 : entryLT b a) :
    False := by
  rcases h1 with h1 | ⟨e1, f1⟩ <;> rcases h2 with h2 | ⟨e2, f2⟩
  · exact lexLt_asymm _ _ h1 h2
  · rw [e2, lexLt_irrefl] at h1
    exact absurd h1 (by simp)
  · rw [e1, lexLt_irrefl] at h2
    exact absurd h2 (by simp)
  · exact lexLt_asymm _ _ f1 f2

/-- Pairwise sortedness plus pairwise-distinct keys gives strict
sortedness (up to equality). -/
lemma pairwise_strict {l : List Entry}
    (hle : l.Pairwise (fun a b => entryLE a b = true))
    (hne : l.Pairwise (fun a b => entryKey a ≠ entryKey b)) :
    l.Pairwise (fun a b => a = b ∨ entryLT a b) := by
  refine (hle.and hne).imp ?_
  intro a b hab
  obtain ⟨hab, hkey⟩ := hab
  right
  rcases (entryLE_true_iff a b).mp hab with ⟨e, f⟩ | lcat
  · refine Or.inr ⟨e, lexLe_ne_lt _ _ f ?_⟩
    intro hf
    apply hkey
    unfold entryKey
    rw [e, show lowerStr a.filename = lowerStr b.filename
      from String.toList_inj.mp hf]
  · exact Or.inl lcat

/-- With pairwise-distinct sort keys, sorting is independent of the input
order. -/
lemma sortEntries_eq_of_perm {l1 l2 : List Entry} (hp : l1.Perm l2)
    (hd : l1.Pairwise (fun a b => entryKey a ≠ entryKey b)) :
    sortEntries l1 = sortEntries l2 := by
  have hperm : (sortEntries l1).Perm (sortEntries l2) :=
    (List.mergeSort_perm l1 entryLE).trans
      (hp.trans (List.mergeSort_perm l2 entryLE).symm)
  have hsym : ∀ {x y : Entry},
      entryKey x ≠ entryKey y → entryKey y ≠ entryKey x := fun h => h.symm
  have hd1 : (sortEntries l1).Pairwise (fun a b => entryKey a ≠ entryKey b) :=
    (((List.mergeSort_perm l1 entryLE).pairwise_iff hsym).mpr) hd
  have hd2 : (sortEntries l2).Pairwise (fun a b => entryKey a ≠ entryKey b) :=
    (((List.mergeSort_perm l2 entryLE).pairwise_iff hsym).mpr)
      ((hp.pairwise_iff hsym).mp hd)
  have hs1 : (sortEntries l1).Pairwise (fun a b => entryLE a b = true) :=
    List.sorted_mergeSort entryLE_trans entryLE_total l1
  have hs2 : (sortEntries l2).Pairwise (fun a b => entryLE a b = true) :=
    List.sorted_mergeSort entryLE_trans entryLE_total l2
  have anti : ∀ (a b : Entry), (a = b ∨ entryLT a b) →
      (b = a ∨ entryLT b a) → a = b := by
    intro a b h1 h2
    rcases h1 with h1 | h1
    · exact h1
    · rcases h2 with h2 | h2
      · exact h2.symm
      · exact absurd (entryLT_asymm h1 h2) (by simp)
  exact @List.eq_of_perm_of_sorted Entry (fun a b => a = b ∨ entryLT a b)
    ⟨anti⟩ _ _ hperm (pairwise_strict hs1 hd1) (pairwise_strict hs2 hd2)

/-- C7 (amended): `build_m3u` processes entries in ascending order of the
lowercased (category, filename) pair, and the output is independent of
the input order whenever those sort keys are pairwise distinct (the sort
is stable, so entries sharing a key keep their input order). -/
theorem build_m3u_sorted_deterministic :
    (∀ l : List Entry,
      (sortEntries l).Pairwise (fun a b => entryLE a b = true)) ∧
    (∀ (net : Net) (cache : Cache) (l1 l2 : List Entry), l1.Perm l2 →
      l1.Pairwise (fun a b => entryKey a ≠ entryKey b) →
      build_m3u net l1 cache = build_m3u net l2 cache) := by
  constructor
  · intro l
    exact List.sorted_mergeSort entryLE_trans entryLE_total l
  · intro net cache l1 l2 hp hd
    simp only [build_m3u, build_m3u_lines, sortEntries_eq_of_perm hp hd]

/-- C7 (witness): two entries with distinct keys — category "B" before
category "A" in the input — build to the same playlist in either input
order (the "A" group is emitted first in both). -/
theorem build_m3u_sorted_deterministic_witness :
    ((([⟨"http://h/y.mkv", "y.mkv", "B"⟩, ⟨"http://h/x.mkv", "x.mkv", "A"⟩] :
        List Entry)).Perm
      [⟨"http://h/x.mkv", "x.mkv", "A"⟩, ⟨"http://h/y.mkv", "y.mkv", "B"⟩] ∧
     (([⟨"http://h/y.mkv", "y.mkv", "B"⟩, ⟨"http://h/x.mkv", "x.mkv", "A"⟩] :
        List Entry)).Pairwise (fun a b => entryKey a ≠ entryKey b)) ∧
    build_m3u ((fun _ _ => none) : Net)
      [⟨"http://h/y.mkv", "y.mkv", "B"⟩, ⟨"http://h/x.mkv", "x.mkv", "A"⟩] [] =
    build_m3u ((fun _ _ => none) : Net)
      [⟨"http://h/x.mkv", "x.mkv", "A"⟩, ⟨"http://h/y.mkv", "y.mkv", "B"⟩] [] :=
  ⟨⟨List.Perm.swap _ _ _, by simp [entryKey]; decide⟩,
   build_m3u_sorted_deterministic.2 ((fun _ _ => none) : Net) []
     [⟨"http://h/y.mkv", "y.mkv", "B"⟩, ⟨"http://h/x.mkv", "x.mkv", "A"⟩]
     [⟨"http://h/x.mkv", "x.mkv", "A"⟩, ⟨"http://h/y.mkv", "y.mkv", "B"⟩]
     (List.Perm.swap _ _ _) (by simp [entryKey]; decide)⟩

/-- C7 (counterexample): the claim that the output order is the same for
every permutation of the input fails when two distinct entries share the
sort key: the stable sort keeps their input order, so the two input
orders produce different playlists. -/
theorem build_m3u_order_cex :
    build_m3u ((fun _ _ => none) : Net)
      [⟨"http://h/a1.mkv", "x.mkv", "A"⟩, ⟨"http://h/a2.mkv", "x.mkv", "A"⟩]
      [] ≠
    build_m3u ((fun _ _ => none) : Net)
      [⟨"http://h/a2.mkv", "x.mkv", "A"⟩, ⟨"http://h/a1.mkv", "x.mkv", "A"⟩]
      [] := by
  have h1 : sortEntries
      [⟨"http://h/a1.mkv", "x.mkv", "A"⟩, ⟨"http://h/a2.mkv", "x.mkv", "A"⟩] =
      [⟨"http://h/a1.mkv", "x.mkv", "A"⟩, ⟨"http://h/a2.mkv", "x.mkv", "A"⟩] :=
    List.mergeSort_of_sorted (by decide)
  have h2 : sortEntries
      [⟨"http://h/a2.mkv", "x.mkv", "A"⟩, ⟨"http://h/a1.mkv", "x.mkv", "A"⟩] =
      [⟨"http://h/a2.mkv", "x.mkv", "A"⟩, ⟨"http://h/a1.mkv", "x.mkv", "A"⟩] :=
    List.mergeSort_of_sorted (by decide)
  simp only [build_m3u, build_m3u_lines, h1, h2]
  decide

/-! ## Main process behavior -/

/-- C8: if the crawl discovers zero video files, the run exits with
status 1 and no output file content is produced; if at least one file is
discovered, the playlist text is produced and the run exits with
status 0. -/
theorem mainRun_exit_behavior (env : CrawlEnv) (net : Net) (fuel : Nat) :
    (crawl env fuel env.base 0 [] = [] → mainRun env net fuel = (1, none)) ∧
    (crawl env fuel env.base 0 [] ≠ [] →
      (mainRun env net fuel).1 = 0 ∧
      (mainRun env net fuel).2 =
        some (build_m3u net (crawl env fuel env.base 0 []) []).1) := by
  constructor
  · intro h
    simp [mainRun, h]
  · intro h
    simp [mainRun, List.isEmpty_iff, h]

/-- A crawl environment whose every fetch fails, so that no file is
discovered. -/
def failEnv : CrawlEnv where
  fetch := fun _ => none
  join := fun u h => u ++ h
  dec := fun s => s
  base := "http://b/"

/-- C8 (witness): with all fetches failing the run exits 1 with no
output; on the demo listing it exits 0 with the playlist text. -/
theorem mainRun_exit_behavior_witness :
    (crawl failEnv 1 failEnv.base 0 [] = [] ∧
     mainRun failEnv ((fun _ _ => none) : Net) 1 = (1, none)) ∧
    (crawl demoEnv 2 demoEnv.base 0 [] ≠ [] ∧
     ((mainRun demoEnv ((fun _ _ => none) : Net) 2).1 = 0 ∧
      (mainRun demoEnv ((fun _ _ => none) : Net) 2).2 =
        some (build_m3u ((fun _ _ => none) : Net)
          (crawl demoEnv 2 demoEnv.base 0 []) []).1)) :=
  ⟨⟨by decide, (mainRun_exit_behavior failEnv ((fun _ _ => none) : Net) 1).1
      (by decide)⟩,
   ⟨by decide, (mainRun_exit_behavior demoEnv ((fun _ _ => none) : Net) 2).2
      (by decide)⟩⟩
